import Mathlib

/-!
Verification development for the go-debian repository.

Part 1 embeds `deb/ar.go` (present in the source tree): the `ar(1)` header
line parser `parseArEntry` and its helpers `toDecimal` (Go
`strings.TrimSpace` + `strconv.Atoi`) and the field extraction.

Part 2 embeds the dependency-string parser of the `dependency` package.
Its implementation file is not in the source tree (only `parser_test.go`
is), so the parser is modelled from the specification document.
-/

deriving instance DecidableEq for Except

namespace deb

/-- A byte is one of the ASCII whitespace bytes that Go `strings.TrimSpace`
removes from the ends of a byte-derived string.  (Bytes ≥ 0x80 never decode
to a whitespace rune here: an isolated high byte decodes to U+FFFD, which is
not whitespace, so ASCII whitespace is the complete set for single bytes.) -/
def isSpaceByte (b : Nat) : Bool :=
  b = 9 || b = 10 || b = 11 || b = 12 || b = 13 || b = 32

/-- Go `strings.TrimSpace` on a byte string: drop whitespace bytes from both
ends. -/
def trimSpaceB (s : List Nat) : List Nat :=
  ((s.dropWhile isSpaceByte).reverse.dropWhile isSpaceByte).reverse

/-- Go `strings.TrimSuffix(s, "/")`: remove one trailing slash (byte 47) if
present.  `ar.go` applies this to the file name field. -/
def trimSuffixSlash (s : List Nat) : List Nat :=
  match s.reverse with
  | 47 :: r => r.reverse
  | _ => s

/-- ASCII decimal digit byte. -/
def isDigitByte (b : Nat) : Bool := 48 ≤ b && b ≤ 57

/-- Value of a digit-byte string read in base 10. -/
def digitsToNat (ds : List Nat) : Nat :=
  ds.foldl (fun a d => a * 10 + (d - 48)) 0

/-- Go `strconv.Atoi` on a byte string: optional sign, then a non-empty run
of decimal digits and nothing else.  `Atoi` additionally fails on 64-bit
overflow; the `ar` header fields are at most 12 bytes, so overflow is
unreachable and is not modelled. -/
def atoi (s : List Nat) : Option Int :=
  match s with
  | 43 :: r => if r ≠ [] && r.all isDigitByte then some (Int.ofNat (digitsToNat r)) else none
  | 45 :: r => if r ≠ [] && r.all isDigitByte then some (-Int.ofNat (digitsToNat r)) else none
  | _ => if s ≠ [] && s.all isDigitByte then some (Int.ofNat (digitsToNat s)) else none

/-- `toDecimal` from `ar.go`: trim whitespace, then `strconv.Atoi`. -/
def toDecimal (input : List Nat) : Option Int :=
  atoi (trimSpaceB input)

/-- The half-open byte slice `line[a:b]` of Go. -/
def extract (line : List Nat) (a b : Nat) : List Nat :=
  (line.drop a).take (b - a)

/-- `ArEntry` from `ar.go` (the `Data` reader field is set by the caller
`Next`, never by `parseArEntry`, and is omitted). -/
structure ArEntry where
  Name : List Nat
  Timestamp : Int
  OwnerID : Int
  GroupID : Int
  FileMode : List Nat
  Size : Int
  deriving DecidableEq, Repr

/-- `parseArEntry` from `ar.go`.  The Go code fills the four decimal fields
by iterating a map whose order is unspecified; the set of accepted lines and
the entry produced on success are order-independent, so the fields are
checked here in the order they are listed in the source.  All decimal-field
failures are collapsed to one error string, distinct from the two explicit
error strings of the source. -/
def parseArEntry (line : List Nat) : Except String ArEntry :=
  if line.length ≠ 60 then
    .error "Malformed file entry line length"
  else if line.getD 58 0 ≠ 0x60 && line.getD 59 0 ≠ 0x0A then
    .error "Malformed file entry line endings"
  else
    match toDecimal (extract line 16 28), toDecimal (extract line 28 34),
          toDecimal (extract line 34 40), toDecimal (extract line 48 58) with
    | some ts, some oid, some gid, some sz =>
        .ok { Name := trimSuffixSlash (trimSpaceB (extract line 0 16))
              Timestamp := ts
              OwnerID := oid
              GroupID := gid
              FileMode := trimSpaceB (extract line 48 58)
              Size := sz }
    | _, _, _, _ => .error "toDecimal: invalid decimal field"

end deb

namespace dependency

/-- Multiarch qualifier / architecture token.  Modelled from the spec:
"a structure with a `CPU` field" (the OS field is never produced by the
grammar exercised here). -/
structure Arch where
  CPU : List Char
  deriving DecidableEq, Repr

/-- Version constraint: operator (one of the five recognized tokens, kept
verbatim) and number (verbatim string). -/
structure VersionRelation where
  Operator : List Char
  Number : List Char
  deriving DecidableEq, Repr

/-- Architecture restriction clause: `Not` for the whole clause, and the
ordered entry list. -/
structure ArchClause where
  Not : Bool
  Architectures : List Arch
  deriving DecidableEq, Repr

/-- One alternative within a relation. -/
structure Possibility where
  Name : List Char
  Substvar : Bool
  Arch : Option Arch
  Version : Option VersionRelation
  Architectures : Option ArchClause
  deriving DecidableEq, Repr

/-- One comma-separated group: ordered possibilities. -/
structure Relation where
  Possibilities : List Possibility
  deriving DecidableEq, Repr

/-- The parse result for one input string. -/
structure Dependency where
  Relations : List Relation
  deriving DecidableEq, Repr

/-- The named error kinds of the spec's error table.  `MalformedSubstvar`
covers the spec's conservative rejection of a `${...}` token that is
unterminated or contains whitespace (an open question in the spec, to be
rejected rather than guessed). -/
inductive ParseError where
  | EmptyRelation
  | EmptyPossibility
  | EmptyName
  | DuplicateVersion
  | DuplicateArchitecture
  | MalformedVersion
  | UnterminatedArchitecture
  | MixedArchNegation
  | MalformedArchitecture
  | TrailingInput
  | MalformedSubstvar
  deriving DecidableEq, Repr

/-- ASCII whitespace, as in the grammar's token separation. -/
def isSpace (c : Char) : Bool :=
  c = ' ' || c = '\t' || c = '\n' || c = '\x0d' || c = '\x0b' || c = '\x0c'

/-- Drop whitespace from both ends of a possibility / group substring. -/
def trim (s : List Char) : List Char :=
  ((s.dropWhile isSpace).reverse.dropWhile isSpace).reverse

/-- Modelled from the spec (§4.1/§4.2, the implementation file of the
`dependency` package is not in the source tree): split on the delimiter at
depth zero, where `(` and `[` increase and `)` and `]` decrease the clause
depth.  Always returns at least one (possibly empty) segment. -/
def splitTopLevelAux (delim : Char) : List Char → Nat → List Char → List (List Char)
  | [], _, acc => [acc.reverse]
  | c :: rest, depth, acc =>
    if c = delim && depth = 0 then
      acc.reverse :: splitTopLevelAux delim rest 0 []
    else if c = '(' || c = '[' then
      splitTopLevelAux delim rest (depth + 1) (c :: acc)
    else if c = ')' || c = ']' then
      splitTopLevelAux delim rest (depth - 1) (c :: acc)
    else
      splitTopLevelAux delim rest depth (c :: acc)

/-- Top-level split (spec §4.1 for `,`, §4.2 for `|`). -/
def splitTopLevel (delim : Char) (s : List Char) : List (List Char) :=
  splitTopLevelAux delim s 0 []

/-- A character that may be part of a name: anything up to whitespace, `:`,
`(`, `[`, or end of string (spec §4.3 step 1). -/
def nameChar (c : Char) : Bool :=
  !(isSpace c || c = ':' || c = '(' || c = '[')

/-- A character that may be part of the multiarch qualifier identifier:
anything up to whitespace, `(`, `[`, or end (spec §4.3 step 2). -/
def qualChar (c : Char) : Bool :=
  !(isSpace c || c = '(' || c = '[')

/-- A character that may be part of an architecture entry token: anything up
to whitespace, `]`, or `!` (stopping at `!` is what detects the
`arch!foo` malformation, spec §4.3.2). -/
def archChar (c : Char) : Bool :=
  !(isSpace c || c = ']' || c = '!')

/-- Modelled from the spec (§4.3.1): the operator table, two-character
operators matched before the one-character `=` (longest match). -/
def parseVersionOp : List Char → Option (List Char × List Char)
  | '>' :: '=' :: r => some (['>', '='], r)
  | '<' :: '=' :: r => some (['<', '='], r)
  | '>' :: '>' :: r => some (['>', '>'], r)
  | '<' :: '<' :: r => some (['<', '<'], r)
  | '=' :: r => some (['='], r)
  | _ => none

/-- Modelled from the spec (§4.3.1): version clause after the opening `(`:
operator, at least one whitespace character, a non-empty number (a run of
non-whitespace, non-`)` characters), then the closing `)`.  Returns the
clause and the rest of the input after `)`. -/
def parseVersion (s : List Char) : Except ParseError (VersionRelation × List Char) :=
  match parseVersionOp s with
  | none => .error .MalformedVersion
  | some (op, rest) =>
    match rest with
    | [] => .error .MalformedVersion
    | c :: _ =>
      if isSpace c then
        let r1 := rest.dropWhile isSpace
        let num := r1.takeWhile (fun d => !(isSpace d || d = ')'))
        let r2 := r1.dropWhile (fun d => !(isSpace d || d = ')'))
        if num = [] then .error .MalformedVersion
        else
          match r2 with
          | ')' :: r3 => .ok (⟨op, num⟩, r3)
          | _ => .error .MalformedVersion
      else .error .MalformedVersion

/-- Modelled from the spec (§4.3.2): architecture clause entries after the
opening `[`.  `firstNeg` is the negation flag of the first entry (`none`
before any entry); `acc` accumulates entries in reverse.  Fuel bounds the
scan (each entry consumes at least one character, so `s.length + 1` fuel is
always enough; running out is reported as an unterminated clause). -/
def parseArchEntries (fuel : Nat) (firstNeg : Option Bool) (acc : List Arch)
    (s : List Char) : Except ParseError (ArchClause × List Char) :=
  match fuel with
  | 0 => .error .UnterminatedArchitecture
  | fuel + 1 =>
    let s1 := s.dropWhile isSpace
    match s1 with
    | [] => .error .UnterminatedArchitecture
    | ']' :: r =>
      if acc = [] then .error .UnterminatedArchitecture
      else .ok (⟨firstNeg.getD false, acc.reverse⟩, r)
    | _ =>
      let neg := decide (s1.headD ' ' = '!')
      let s2 := if neg then s1.tail else s1
      let tok := s2.takeWhile archChar
      let s3 := s2.dropWhile archChar
      if tok = [] then .error .MalformedArchitecture
      else
        match s3 with
        | '!' :: _ => .error .MalformedArchitecture
        | _ =>
          match firstNeg with
          | none => parseArchEntries fuel (some neg) [⟨tok⟩] s3
          | some fn =>
            if neg = fn then parseArchEntries fuel firstNeg (⟨tok⟩ :: acc) s3
            else .error .MixedArchNegation

/-- Modelled from the spec (§4.3 step 3): the clause loop.  Skip whitespace;
on `(` parse a version clause, on `[` an architecture clause, each at most
once; anything else remaining is trailing input.  Fuel bounds the loop (each
iteration consumes at least one character). -/
def parseClauses (fuel : Nat) (p : Possibility) (s : List Char) :
    Except ParseError Possibility :=
  match fuel with
  | 0 => .error .TrailingInput
  | fuel + 1 =>
    let s1 := s.dropWhile isSpace
    match s1 with
    | [] => .ok p
    | '(' :: r =>
      match p.Version with
      | some _ => .error .DuplicateVersion
      | none =>
        match parseVersion r with
        | .error e => .error e
        | .ok (v, rest) => parseClauses fuel { p with Version := some v } rest
    | '[' :: r =>
      match p.Architectures with
      | some _ => .error .DuplicateArchitecture
      | none =>
        match parseArchEntries (r.length + 1) none [] r with
        | .error e => .error e
        | .ok (a, rest) => parseClauses fuel { p with Architectures := some a } rest
    | _ => .error .TrailingInput

/-- Modelled from the spec (§4.3): parse one trimmed possibility substring.
A `${...}` token is read atomically: its interior (which may contain `:`)
becomes the name verbatim, `Substvar` is set, and the token is not subject
to the multiarch/version/arch-restriction grammar (only trailing whitespace
may follow).  Otherwise: name, optional tightly-bound `:qualifier`, then the
clause loop. -/
def parsePossibility (s : List Char) : Except ParseError Possibility :=
  match s with
  | '$' :: '{' :: r =>
    let interior := r.takeWhile (fun c => !(c = '}' || isSpace c))
    let rest := r.dropWhile (fun c => !(c = '}' || isSpace c))
    match rest with
    | '}' :: r2 =>
      if r2.dropWhile isSpace = [] then
        .ok ⟨interior, true, none, none, none⟩
      else .error .TrailingInput
    | _ => .error .MalformedSubstvar
  | _ =>
    let name := s.takeWhile nameChar
    let rest := s.dropWhile nameChar
    if name = [] then .error .EmptyName
    else
      match rest with
      | ':' :: r =>
        let cpu := r.takeWhile qualChar
        let r2 := r.dropWhile qualChar
        parseClauses (r2.length + 1) ⟨name, false, some ⟨cpu⟩, none, none⟩ r2
      | _ => parseClauses (rest.length + 1) ⟨name, false, none, none, none⟩ rest

/-- Error-propagating map, used by the splitter stages. -/
def mapME (f : List Char → Except ParseError α) : List (List Char) → Except ParseError (List α)
  | [] => .ok []
  | a :: l =>
    match f a with
    | .error e => .error e
    | .ok b =>
      match mapME f l with
      | .error e => .error e
      | .ok bs => .ok (b :: bs)

/-- Modelled from the spec (§4.2): one pipe-delimited alternative; empty
after trimming is `EmptyPossibility`. -/
def parsePossibilityText (a : List Char) : Except ParseError Possibility :=
  if trim a = [] then .error .EmptyPossibility else parsePossibility (trim a)

/-- Modelled from the spec (§4.1/§4.2): one comma-delimited relation group;
empty after trimming is `EmptyRelation`, otherwise split on top-level `|`
and parse every alternative. -/
def parseRelationGroup (g : List Char) : Except ParseError Relation :=
  if trim g = [] then .error .EmptyRelation
  else
    match mapME parsePossibilityText (splitTopLevel '|' (trim g)) with
    | .error e => .error e
    | .ok ps => .ok ⟨ps⟩

/-- Modelled from the spec (§6): the single entry point over a character
list: trim, split on top-level commas, parse every group. -/
def parseChars (s : List Char) : Except ParseError Dependency :=
  match mapME parseRelationGroup (splitTopLevel ',' (trim s)) with
  | .error e => .error e
  | .ok rs => .ok ⟨rs⟩

/-- Modelled from the spec (§6): `Parse` on a string input. -/
def Parse (s : String) : Except ParseError Dependency :=
  parseChars s.data

end dependency

/-- A concrete well-formed 60-byte `ar` header line (the `debian-binary`
member of a `.deb`), used to instantiate the universally quantified
theorems below. -/
def arLineEx : List Nat :=
  "debian-binary   1342943816  0     0     100644  4         ".data.map Char.toNat
    ++ [0x60, 0x0A]

/-- The entry `parseArEntry` produces for `arLineEx`. -/
def arEntryEx : deb.ArEntry :=
  ⟨"debian-binary".data.map Char.toNat, 1342943816, 0, 0, [52], 4⟩

/-- The first 40 bytes of `arLineEx` (name, timestamp, owner, group). -/
def arHeadEx : List Nat := arLineEx.take 40

/-- Bytes 40..48 of `arLineEx`: the documented octal file-mode field. -/
def arModeEx1 : List Nat := "100644  ".data.map Char.toNat

/-- An alternative mode field with the same width. -/
def arModeEx2 : List Nat := "   777  ".data.map Char.toNat

/-- Bytes 48..60 of `arLineEx` (size field and magic). -/
def arTailEx : List Nat := arLineEx.drop 48

/-- A 60-byte line whose byte 58 is the correct `0x60` but whose byte 59 is
not `0x0A`: exactly one magic byte is correct. -/
def arLineOneMagicEx : List Nat :=
  "debian-binary   1342943816  0     0     100644  4         ".data.map Char.toNat
    ++ [0x60, 65]

/-- C1: for every operator in {`>=`, `<=`, `>>`, `<<`, `=`}, parsing
`foo (op 1.0)` succeeds with exactly one relation holding one possibility
whose version clause has that operator and number `1.0`; the two-character
operators are recognized by the longest-match table before `=`. -/
theorem claim_C1 : ∀ op ∈ ([">=", "<=", ">>", "<<", "="] : List String),
    dependency.Parse ("foo (" ++ op ++ " 1.0)") =
      Except.ok ⟨[⟨[⟨"foo".data, false, none, some ⟨op.data, "1.0".data⟩, none⟩]⟩]⟩ := by
  decide

theorem claim_C1_witness :
    dependency.Parse ("foo (" ++ ">=" ++ " 1.0)") =
      Except.ok ⟨[⟨[⟨"foo".data, false, none, some ⟨">=".data, "1.0".data⟩, none⟩]⟩]⟩ :=
  claim_C1 ">=" (by decide)

/-- C2: `${foo:Depends}, bar, baz` parses to three relations of one
possibility each; the first has name `foo:Depends` (braces stripped, the
interior `:` kept verbatim) with `Substvar = true` and no multiarch
qualifier, the other two are plain names with `Substvar = false`. -/
theorem claim_C2 :
    dependency.Parse "${foo:Depends}, bar, baz" =
      Except.ok ⟨[⟨[⟨"foo:Depends".data, true, none, none, none⟩]⟩,
                  ⟨[⟨"bar".data, false, none, none, none⟩]⟩,
                  ⟨[⟨"baz".data, false, none, none, none⟩]⟩]⟩ := by
  decide

/-- C3: `foo bar` (no comma), `foo (>= 1.0) (<= 2.0)` (second version
clause) and `foo [amd64] [sparc]` (second architecture clause) all fail to
parse, with trailing-input and duplicate-clause errors respectively. -/
theorem claim_C3 :
    dependency.Parse "foo bar" = Except.error .TrailingInput ∧
    dependency.Parse "foo (>= 1.0) (<= 2.0)" = Except.error .DuplicateVersion ∧
    dependency.Parse "foo [amd64] [sparc]" = Except.error .DuplicateArchitecture := by
  refine ⟨by decide, by decide, by decide⟩

/-- C4: `foo [arch !foo]` fails with the mixed-negation error (the first
entry fixes the clause's flag and a differing later entry is rejected), and
`foo [arch!foo]` fails with the malformed-architecture error (a `!` abutting
the previous token, entries must be whitespace-separated). -/
theorem claim_C4 :
    dependency.Parse "foo [arch !foo]" = Except.error .MixedArchNegation ∧
    dependency.Parse "foo [arch!foo]" = Except.error .MalformedArchitecture := by
  refine ⟨by decide, by decide⟩

/-- C5: `foo, bar | baz` parses to two relations in written order; the
second has exactly the two possibilities `bar` then `baz`, in order. -/
theorem claim_C5 :
    dependency.Parse "foo, bar | baz" =
      Except.ok ⟨[⟨[⟨"foo".data, false, none, none, none⟩]⟩,
                  ⟨[⟨"bar".data, false, none, none, none⟩,
                    ⟨"baz".data, false, none, none, none⟩]⟩]⟩ := by
  decide

/-- C6: `foo:amd64` parses with name `foo` and multiarch qualifier CPU
`amd64`; `foo:amd64 [amd64 sparc]` additionally carries an architecture
clause with `Not = false` and entries `amd64` then `sparc` in order. -/
theorem claim_C6 :
    dependency.Parse "foo:amd64" =
      Except.ok ⟨[⟨[⟨"foo".data, false, some ⟨"amd64".data⟩, none, none⟩]⟩]⟩ ∧
    dependency.Parse "foo:amd64 [amd64 sparc]" =
      Except.ok ⟨[⟨[⟨"foo".data, false, some ⟨"amd64".data⟩, none,
                    some ⟨false, [⟨"amd64".data⟩, ⟨"sparc".data⟩]⟩⟩]⟩]⟩ := by
  refine ⟨by decide, by decide⟩

/-- C7: every truncated version clause in the test set fails to parse with
the malformed-version error: unterminated clause, missing number, missing
whitespace, unrecognized operator token, or missing operator. -/
theorem claim_C7 : ∀ s ∈ (["foo (>= 1.0", "foo (>= 1", "foo (>= ",
                           "foo (>=", "foo (>", "foo ("] : List String),
    dependency.Parse s = Except.error .MalformedVersion := by
  decide

theorem claim_C7_witness :
    dependency.Parse "foo (>= 1.0" = Except.error .MalformedVersion :=
  claim_C7 "foo (>= 1.0" (by decide)

/-- The depth-tracking splitter always yields at least one segment. -/
theorem splitTopLevelAux_ne_nil (delim : Char) (s : List Char) :
    ∀ (depth : Nat) (acc : List Char),
      dependency.splitTopLevelAux delim s depth acc ≠ [] := by
  induction s with
  | nil => intro depth acc; simp [dependency.splitTopLevelAux]
  | cons c rest ih =>
    intro depth acc
    unfold dependency.splitTopLevelAux
    split_ifs with h1 h2 h3
    · simp
    · exact ih _ _
    · exact ih _ _
    · exact ih _ _

/-- `mapME` preserves length on success. -/
theorem mapME_ok_length {α : Type} (f : List Char → Except dependency.ParseError α) :
    ∀ (l : List (List Char)) (bs : List α),
      dependency.mapME f l = Except.ok bs → bs.length = l.length := by
  intro l
  induction l with
  | nil => intro bs h; simp [dependency.mapME] at h; simp [← h]
  | cons a t ih =>
    intro bs h
    unfold dependency.mapME at h
    cases hf : f a with
    | error e => rw [hf] at h; simp at h
    | ok b =>
      rw [hf] at h
      cases hm : dependency.mapME f t with
      | error e => rw [hm] at h; simp at h
      | ok tb =>
        rw [hm] at h
        simp only [Except.ok.injEq] at h
        subst h
        simp [ih tb hm]

/-- On success, every output of `mapME` comes from some input segment. -/
theorem mapME_ok_mem {α : Type} (f : List Char → Except dependency.ParseError α) :
    ∀ (l : List (List Char)) (bs : List α),
      dependency.mapME f l = Except.ok bs →
      ∀ b ∈ bs, ∃ a ∈ l, f a = Except.ok b := by
  intro l
  induction l with
  | nil =>
    intro bs h
    simp [dependency.mapME] at h
    intro b hb
    rw [h] at hb
    simp at hb
  | cons a t ih =>
    intro bs h
    unfold dependency.mapME at h
    cases hf : f a with
    | error e => rw [hf] at h; simp at h
    | ok b0 =>
      rw [hf] at h
      cases hm : dependency.mapME f t with
      | error e => rw [hm] at h; simp at h
      | ok tb =>
        rw [hm] at h
        simp only [Except.ok.injEq] at h
        subst h
        intro b hb
        rcases List.mem_cons.mp hb with hb | hb
        · exact ⟨a, List.mem_cons_self a t, by rw [hb, hf]⟩
        · rcases ih tb hm b hb with ⟨a2, ha2, hfa2⟩
          exact ⟨a2, List.mem_cons_of_mem a ha2, hfa2⟩

/-- A successfully parsed relation group has at least one possibility: the
pipe splitter yields at least one segment and each must parse. -/
theorem parseRelationGroup_ne_nil (g : List Char) (r : dependency.Relation) :
    dependency.parseRelationGroup g = Except.ok r → r.Possibilities ≠ [] := by
  intro h
  unfold dependency.parseRelationGroup at h
  split at h
  · simp at h
  · cases hm : dependency.mapME dependency.parsePossibilityText
        (dependency.splitTopLevel '|' (dependency.trim g)) with
    | error e => rw [hm] at h; simp at h
    | ok ps =>
      rw [hm] at h
      simp only [Except.ok.injEq] at h
      subst h
      intro hnil
      have hps : ps = [] := hnil
      have hlen := mapME_ok_length dependency.parsePossibilityText _ ps hm
      rw [hps] at hlen
      exact splitTopLevelAux_ne_nil '|' (dependency.trim g) 0 []
        (List.length_eq_zero.mp hlen.symm)

/-- C8: whenever parsing succeeds, the dependency has at least one relation
and every relation has at least one possibility — empty input, an empty
comma group, or an empty pipe alternative always fails the whole parse
instead. -/
theorem claim_C8 : ∀ (s : String) (d : dependency.Dependency),
    dependency.Parse s = Except.ok d →
    d.Relations ≠ [] ∧ ∀ r ∈ d.Relations, r.Possibilities ≠ [] := by
  intro s d h
  unfold dependency.Parse dependency.parseChars at h
  cases hm : dependency.mapME dependency.parseRelationGroup
      (dependency.splitTopLevel ',' (dependency.trim s.data)) with
  | error e => rw [hm] at h; simp at h
  | ok rs =>
    rw [hm] at h
    simp only [Except.ok.injEq] at h
    subst h
    constructor
    · intro hnil
      have hrs : rs = [] := hnil
      have hlen := mapME_ok_length dependency.parseRelationGroup _ rs hm
      rw [hrs] at hlen
      exact splitTopLevelAux_ne_nil ',' (dependency.trim s.data) 0 []
        (List.length_eq_zero.mp hlen.symm)
    · intro r hr
      rcases mapME_ok_mem dependency.parseRelationGroup _ rs hm r hr with ⟨g, _, hg⟩
      exact parseRelationGroup_ne_nil g r hg

theorem claim_C8_witness :
    (⟨[⟨[⟨"foo".data, false, none, none, none⟩]⟩]⟩ : dependency.Dependency).Relations ≠ [] ∧
    ∀ r ∈ (⟨[⟨[⟨"foo".data, false, none, none, none⟩]⟩]⟩ :
        dependency.Dependency).Relations, r.Possibilities ≠ [] :=
  claim_C8 "foo" ⟨[⟨[⟨"foo".data, false, none, none, none⟩]⟩]⟩ (by decide)

/-- When a 60-byte line is decomposed as `a ++ m ++ b` with `a` the first 40
bytes and `m` the 8-byte mode field, every slice and byte that
`parseArEntry` reads is a function of `a` and `b` alone. -/
theorem arLine_parts (a m b : List Nat) (ha : a.length = 40) (hm : m.length = 8) :
    (a ++ m ++ b).length = 48 + b.length ∧
    deb.extract (a ++ m ++ b) 0 16 = a.take 16 ∧
    deb.extract (a ++ m ++ b) 16 28 = (a.drop 16).take 12 ∧
    deb.extract (a ++ m ++ b) 28 34 = (a.drop 28).take 6 ∧
    deb.extract (a ++ m ++ b) 34 40 = (a.drop 34).take 6 ∧
    deb.extract (a ++ m ++ b) 48 58 = b.take 10 ∧
    (a ++ m ++ b).getD 58 0 = b.getD 10 0 ∧
    (a ++ m ++ b).getD 59 0 = b.getD 11 0 := by
  refine ⟨by simp [ha, hm]; omega, ?_, ?_, ?_, ?_, ?_, ?_, ?_⟩
  · simp [deb.extract, List.take_append_eq_append_take, ha, hm]
  · simp [deb.extract, List.take_append_eq_append_take,
      List.drop_append_eq_append_drop, ha, hm]
  · simp [deb.extract, List.take_append_eq_append_take,
      List.drop_append_eq_append_drop, ha, hm]
  · simp [deb.extract, List.take_append_eq_append_take,
      List.drop_append_eq_append_drop, ha, hm]
  · simp [deb.extract, List.take_append_eq_append_take,
      List.drop_append_eq_append_drop, List.drop_eq_nil_of_le, ha, hm]
  · rw [List.getD_append_right _ _ _ _ (by simp [ha, hm])]
    simp [ha, hm]
  · rw [List.getD_append_right _ _ _ _ (by simp [ha, hm])]
    simp [ha, hm]

/-- C9: for every accepted header line, `FileMode` is the whitespace-trimmed
text of bytes 48..58 — the very bytes whose decimal value is `Size` (so
`atoi FileMode = some Size`) — and the documented octal mode field at bytes
40..48 never influences the result of `parseArEntry`. -/
theorem claim_C9 :
    (∀ (line : List Nat) (e : deb.ArEntry), deb.parseArEntry line = Except.ok e →
        e.FileMode = deb.trimSpaceB (deb.extract line 48 58) ∧
        deb.atoi e.FileMode = some e.Size) ∧
    (∀ (a m1 m2 b : List Nat), a.length = 40 → m1.length = 8 → m2.length = 8 →
        deb.parseArEntry (a ++ m1 ++ b) = deb.parseArEntry (a ++ m2 ++ b)) := by
  constructor
  · intro line e h
    unfold deb.parseArEntry at h
    split at h
    · simp at h
    · split at h
      · simp at h
      · cases h16 : deb.toDecimal (deb.extract line 16 28) with
        | none => rw [h16] at h; simp at h
        | some ts =>
          rw [h16] at h
          cases h28 : deb.toDecimal (deb.extract line 28 34) with
          | none => rw [h28] at h; simp at h
          | some oid =>
            rw [h28] at h
            cases h34 : deb.toDecimal (deb.extract line 34 40) with
            | none => rw [h34] at h; simp at h
            | some gid =>
              rw [h34] at h
              cases h48 : deb.toDecimal (deb.extract line 48 58) with
              | none => rw [h48] at h; simp at h
              | some sz =>
                rw [h48] at h
                simp only [Except.ok.injEq] at h
                subst h
                exact ⟨rfl, h48⟩
  · intro a m1 m2 b ha hm1 hm2
    obtain ⟨l1, e1, e2, e3, e4, e5, g1, g2⟩ := arLine_parts a m1 b ha hm1
    obtain ⟨l1x, e1x, e2x, e3x, e4x, e5x, g1x, g2x⟩ := arLine_parts a m2 b ha hm2
    unfold deb.parseArEntry
    rw [l1, e1, e2, e3, e4, e5, g1, g2, l1x, e1x, e2x, e3x, e4x, e5x, g1x, g2x]

theorem claim_C9_witness :
    (arEntryEx.FileMode = deb.trimSpaceB (deb.extract arLineEx 48 58) ∧
     deb.atoi arEntryEx.FileMode = some arEntryEx.Size) ∧
    deb.parseArEntry (arHeadEx ++ arModeEx1 ++ arTailEx) =
      deb.parseArEntry (arHeadEx ++ arModeEx2 ++ arTailEx) :=
  ⟨claim_C9.1 arLineEx arEntryEx (by decide),
   claim_C9.2 arHeadEx arModeEx1 arModeEx2 arTailEx (by decide) (by decide) (by decide)⟩

/-- C10: on a 60-byte line the "Malformed file entry line endings" error is
returned exactly when BOTH magic bytes are wrong (byte 58 ≠ 0x60 AND byte
59 ≠ 0x0A); with exactly one of them correct the magic check passes and
parsing proceeds. -/
theorem claim_C10 : ∀ (line : List Nat), line.length = 60 →
    (deb.parseArEntry line = Except.error "Malformed file entry line endings" ↔
      (line.getD 58 0 ≠ 0x60 ∧ line.getD 59 0 ≠ 0x0A)) := by
  intro line hlen
  unfold deb.parseArEntry
  split
  · rename_i hc
    exact absurd hlen hc
  · split
    · rename_i hc
      simp only [Bool.and_eq_true, decide_eq_true_eq] at hc
      exact iff_of_true rfl hc
    · rename_i hc
      simp only [Bool.and_eq_true, decide_eq_true_eq] at hc
      rw [Classical.not_and_iff_or_not_not] at hc
      constructor
      · intro h
        exfalso
        cases h16 : deb.toDecimal (deb.extract line 16 28) with
        | none => rw [h16] at h; simp at h
        | some ts =>
          rw [h16] at h
          cases h28 : deb.toDecimal (deb.extract line 28 34) with
          | none => rw [h28] at h; simp at h
          | some oid =>
            rw [h28] at h
            cases h34 : deb.toDecimal (deb.extract line 34 40) with
            | none => rw [h34] at h; simp at h
            | some gid =>
              rw [h34] at h
              cases h48 : deb.toDecimal (deb.extract line 48 58) with
              | none => rw [h48] at h; simp at h
              | some sz => rw [h48] at h; simp at h
      · intro hrhs
        rcases hc with hc | hc
        · exact absurd hrhs.1 (by simpa using hc)
        · exact absurd hrhs.2 (by simpa using hc)

theorem claim_C10_witness :
    deb.parseArEntry arLineOneMagicEx = Except.error "Malformed file entry line endings" ↔
      (arLineOneMagicEx.getD 58 0 ≠ 0x60 ∧ arLineOneMagicEx.getD 59 0 ≠ 0x0A) :=
  claim_C10 arLineOneMagicEx (by decide)
